import Mathlib

/-!
A verification development for the compell coding-assistant agent.

The Go sources are shallowly embedded: pure data structures become Lean
structures over a `Json` value type, the orchestration loop of
`agent/agent.go` becomes a recursive function driven by a script of LLM
answers (one script entry per `Chat` invocation), and the JSON-RPC server
of `agent/acp/acp.go` becomes a step function over parsed input lines.
External effects (the LLM backend, tool execution, the clock, the file
system) are parameters.  Error values built by the `errors` package carry
a `[file:line]` diagnostic tag produced by `runtime.Caller`; the tag is
location metadata and is omitted from the embedded message strings.
-/

namespace Compell

/-- A JSON value, the embedding of Go's `interface{}` holding decoded JSON
(`encoding/json`): null, booleans, numbers, strings, arrays and objects.
Objects are association lists of string keys. -/
inductive Json where
  | null
  | bool (b : Bool)
  | num (n : Int)
  | str (s : String)
  | arr (elems : List Json)
  | obj (fields : List (String × Json))
  deriving Repr

/-- ToolCall mirrors `session.ToolCall`: a function call requested by the
model, with fields `ToolCallID`, `Name` and `Args` (a string-keyed map of
JSON values, embedded as an association list). -/
structure ToolCall where
  toolCallID : String
  name : String
  args : List (String × Json)
  deriving Repr

/-- Message mirrors `session.Message`: one turn of conversation with a
`Role` string ("user", "assistant" or "tool"), text `Content` and a list
of `ToolCalls`. -/
structure Message where
  role : String
  content : String
  toolCalls : List ToolCall
  deriving Repr

/-- Session mirrors the exported fields of `session.Session`.  The
unexported `path` field only caches the storage location derived from
`Name` and is not part of the serialized state, so it is not modelled. -/
structure Session where
  name : String
  messages : List Message
  mode : String
  toolset : String
  toolVerbosity : String
  acp : Bool
  deriving Repr

/-- A tool capability (`tools.Tool`): a name and an `Execute` function
from arguments to a result string or an error. -/
structure Tool where
  name : String
  exec : List (String × Json) → Except String String

/-- The agent mode (`agent.Mode`): `auto` or `prompt`. -/
inductive Mode where
  | auto
  | prompt
  deriving Repr, DecidableEq

/-- The part of `agent.Agent` plus `agent.ProcessCallbacks` that the
orchestration loop consults: the available tools, the mode, and the
optional `ShouldExecuteTool` callback. -/
structure AgentCfg where
  tools : List Tool
  mode : Mode
  shouldExecuteTool : Option (ToolCall → Bool)

/-- ExecuteToolCall mirrors `Agent.ExecuteToolCall`: resolve the named
tool by scanning `AvailableTools` for the first name match; a missing
tool is an error (built by `errors.New`, whose `[file:line]` tag is
omitted here), otherwise the tool's `Execute` result is returned. -/
def ExecuteToolCall (availableTools : List Tool) (tc : ToolCall) : Except String String :=
  match availableTools.find? (fun t => t.name == tc.name) with
  | none => Except.error ("tool \x27" ++ tc.name ++ "\x27 not found in the available toolset")
  | some t => t.exec tc.args

/-- shouldExecuteFor mirrors the gate in `ProcessUserInput`: execution
defaults to true, and only in `prompt` mode with a non-nil
`ShouldExecuteTool` callback is the callback consulted. -/
def shouldExecuteFor (cfg : AgentCfg) (tc : ToolCall) : Bool :=
  match cfg.mode, cfg.shouldExecuteTool with
  | Mode.prompt, some f => f tc
  | _, _ => true

/-- toolResultFor computes the textual result recorded for one tool call
in `ProcessUserInput`: a denied call yields a fixed denial text, an
execution error is rendered as "Error executing tool <name>: <cause>",
and a successful execution yields its result string. -/
def toolResultFor (cfg : AgentCfg) (tc : ToolCall) : String :=
  if shouldExecuteFor cfg tc = false then
    "User denied tool execution."
  else
    match ExecuteToolCall cfg.tools tc with
    | Except.ok r => r
    | Except.error e => "Error executing tool " ++ tc.name ++ ": " ++ e

/-- toolMsgFor builds the tool-role message `ProcessUserInput` appends for
one tool call: role "tool", the textual result as content, and a single
echoed ToolCall carrying the id and name (Go leaves `Args` nil). -/
def toolMsgFor (cfg : AgentCfg) (tc : ToolCall) : Message :=
  { role := "tool", content := toolResultFor cfg tc,
    toolCalls := [{ toolCallID := tc.toolCallID, name := tc.name, args := [] }] }

/-- The outcome of one `ProcessUserInput` turn.  `llmError` is the
wrapped error returned when the LLM capability fails; `outOfScript` is a
model artifact marking that the finite LLM script was exhausted before
the loop terminated (a real backend always answers). -/
inductive TurnResult where
  | ok
  | llmError (e : String)
  | outOfScript
  deriving Repr, DecidableEq

/-- Observable actions of the orchestration loop, in program order: a
`Chat` invocation recording the history it receives, a
`Session.AddMessage`, and a `Session.Save` recording the history it
persists. -/
inductive AgentEvent where
  | llmCall (hist : List Message)
  | append (m : Message)
  | save (hist : List Message)

/-- runRounds is the main loop of `Agent.ProcessUserInput`
(`agent/agent.go`): each round invokes the LLM (consuming one script
entry); a chat error aborts the turn with the wrapped error
("LLM chat failed: <cause>", the `errors.Wrapf` location tag omitted);
otherwise the assistant message is appended, and if it carries no tool
calls the session is saved and the loop ends, else every tool call is
processed in order into a tool-role message, the batch is appended, and
the loop continues with the enlarged history. -/
def runRounds (cfg : AgentCfg) :
    List (Except String Message) → List Message →
    List Message × TurnResult × List AgentEvent
  | [], hist => (hist, TurnResult.outOfScript, [])
  | resp :: rest, hist =>
    match resp with
    | Except.error e =>
        (hist, TurnResult.llmError ("LLM chat failed: " ++ e), [AgentEvent.llmCall hist])
    | Except.ok am =>
        if am.toolCalls.isEmpty then
          (hist ++ [am], TurnResult.ok,
            [AgentEvent.llmCall hist, AgentEvent.append am, AgentEvent.save (hist ++ [am])])
        else
          let toolMsgs := am.toolCalls.map (toolMsgFor cfg)
          let next := runRounds cfg rest (hist ++ am :: toolMsgs)
          (next.1, next.2.1,
            AgentEvent.llmCall hist :: AgentEvent.append am ::
              (toolMsgs.map AgentEvent.append ++ next.2.2))

/-- ProcessUserInput mirrors `Agent.ProcessUserInput`: append the user
message, then run the LLM/tool loop.  The session history at entry and
the script of LLM answers are explicit parameters. -/
def ProcessUserInput (cfg : AgentCfg) (script : List (Except String Message))
    (userInput : String) (histStart : List Message) :
    List Message × TurnResult × List AgentEvent :=
  let userMsg : Message := { role := "user", content := userInput, toolCalls := [] }
  let r := runRounds cfg script (histStart ++ [userMsg])
  (r.1, r.2.1, AgentEvent.append userMsg :: r.2.2)

/-- The loop only appends to the session history. -/
theorem runRounds_extends (cfg : AgentCfg) (script : List (Except String Message))
    (hist : List Message) : ∃ t, (runRounds cfg script hist).1 = hist ++ t := by
  induction script generalizing hist with
  | nil => exact ⟨[], by simp [runRounds]⟩
  | cons r rest ih =>
    cases r with
    | error e => exact ⟨[], by simp [runRounds]⟩
    | ok am =>
      cases h : am.toolCalls.isEmpty with
      | true => exact ⟨[am], by simp [runRounds, h]⟩
      | false =>
        obtain ⟨t, ht⟩ := ih (hist ++ am :: am.toolCalls.map (toolMsgFor cfg))
        exact ⟨am :: am.toolCalls.map (toolMsgFor cfg) ++ t, by
          simp [runRounds, h, ht]⟩

/-- An agent configuration with no tools, auto mode, no confirmation
callback; used to evaluate the model on concrete inputs. -/
def cfg0 : AgentCfg := { tools := [], mode := Mode.auto, shouldExecuteTool := none }

/-- An assistant message requesting two tool calls. -/
def am0 : Message :=
  { role := "assistant", content := "",
    toolCalls :=
      [ { toolCallID := "call_1", name := "read_file", args := [] },
        { toolCallID := "call_2", name := "write_file", args := [] } ] }

/-- C1: in every round whose assistant message carries N tool calls, the
loop appends, directly after that assistant message, exactly N tool-role
messages; the i-th carries exactly one ToolCall echoing the id (and name)
of the i-th ToolCall of the assistant message, in the assistant's order
(`List.Forall₂` relates the two lists position by position). -/
theorem c1_tool_role_messages (cfg : AgentCfg) (rest : List (Except String Message))
    (am : Message) (hist : List Message) (h : am.toolCalls ≠ []) :
    ∃ tail,
      (runRounds cfg (Except.ok am :: rest) hist).1
          = hist ++ am :: (am.toolCalls.map (toolMsgFor cfg) ++ tail)
      ∧ (am.toolCalls.map (toolMsgFor cfg)).length = am.toolCalls.length
      ∧ List.Forall₂
          (fun tc m =>
            m.role = "tool"
            ∧ m.toolCalls = [{ toolCallID := tc.toolCallID, name := tc.name, args := [] }])
          am.toolCalls (am.toolCalls.map (toolMsgFor cfg)) := by
  have hne : am.toolCalls.isEmpty = false := by
    cases hc : am.toolCalls with
    | nil => exact absurd hc h
    | cons a l => simp
  obtain ⟨t, ht⟩ := runRounds_extends cfg rest (hist ++ am :: am.toolCalls.map (toolMsgFor cfg))
  refine ⟨t, ?_, ?_, ?_⟩
  · simp only [runRounds, hne]
    simp [ht]
  · simp
  · clear ht hne h
    induction am.toolCalls with
    | nil => exact List.Forall₂.nil
    | cons a l ih => exact List.Forall₂.cons ⟨rfl, rfl⟩ ih

/-- Witness for C1 at a concrete two-call round. -/
theorem c1_tool_role_messages_witness :
    am0.toolCalls ≠ []
    ∧ ∃ tail,
      (runRounds cfg0 [Except.ok am0] []).1
          = [] ++ am0 :: (am0.toolCalls.map (toolMsgFor cfg0) ++ tail)
      ∧ (am0.toolCalls.map (toolMsgFor cfg0)).length = am0.toolCalls.length
      ∧ List.Forall₂
          (fun tc m =>
            m.role = "tool"
            ∧ m.toolCalls = [{ toolCallID := tc.toolCallID, name := tc.name, args := [] }])
          am0.toolCalls (am0.toolCalls.map (toolMsgFor cfg0)) := by
  have h : am0.toolCalls ≠ [] := by simp [am0]
  exact ⟨h, c1_tool_role_messages cfg0 [] am0 [] h⟩

/-- A failing tool call: no tool named "nope" is available in `cfg0`. -/
def tcMissing : ToolCall := { toolCallID := "call_9", name := "nope", args := [] }

/-- C2: when the gate passes and the named tool is missing or its
execution fails, the recorded tool-role message's content is the textual
"Error executing tool <name>: <cause>" (in particular it contains the
substring "Error"), no error is returned for that reason (a script whose
entries are all successful assistant answers never yields `llmError`),
and the loop continues into the next LLM invocation with the enlarged
history. -/
theorem c2_tool_failure_is_data (cfg : AgentCfg) (tc : ToolCall)
    (hgate : shouldExecuteFor cfg tc = true)
    (hfail : ∃ e, ExecuteToolCall cfg.tools tc = Except.error e) :
    (∃ cause, (toolMsgFor cfg tc).content = "Error executing tool " ++ tc.name ++ ": " ++ cause)
    ∧ (∃ post, (toolMsgFor cfg tc).content = "Error" ++ post)
    ∧ (toolMsgFor cfg tc).role = "tool"
    ∧ (∀ script, (∀ r ∈ script, ∃ am, r = Except.ok am) →
        ∀ hist e, (runRounds cfg script hist).2.1 ≠ TurnResult.llmError e)
    ∧ (∀ rest am hist, am.toolCalls ≠ [] →
        runRounds cfg (Except.ok am :: rest) hist
          = ((runRounds cfg rest (hist ++ am :: am.toolCalls.map (toolMsgFor cfg))).1,
             (runRounds cfg rest (hist ++ am :: am.toolCalls.map (toolMsgFor cfg))).2.1,
             AgentEvent.llmCall hist :: AgentEvent.append am ::
               ((am.toolCalls.map (toolMsgFor cfg)).map AgentEvent.append
                 ++ (runRounds cfg rest (hist ++ am :: am.toolCalls.map (toolMsgFor cfg))).2.2))) := by
  obtain ⟨e, he⟩ := hfail
  have hcontent : (toolMsgFor cfg tc).content
      = "Error executing tool " ++ (tc.name ++ (": " ++ e)) := by
    simp [toolMsgFor, toolResultFor, hgate, he, String.append_assoc]
  have hEx : "Error executing tool " = "Error" ++ " executing tool " := by decide
  refine ⟨⟨e, by simp [toolMsgFor, toolResultFor, hgate, he, String.append_assoc]⟩,
    ⟨" executing tool " ++ (tc.name ++ (": " ++ e)), ?_⟩, rfl, ?_, ?_⟩
  · rw [hcontent, hEx, String.append_assoc]
  · intro script hok
    induction script with
    | nil => intro hist e'; simp [runRounds]
    | cons r rest ih =>
      intro hist e'
      obtain ⟨am, ham⟩ := hok r (List.mem_cons_self r rest)
      subst ham
      cases hne : am.toolCalls.isEmpty with
      | true => simp [runRounds, hne]
      | false =>
        have ih' := ih (fun r hr => hok r (List.mem_cons_of_mem _ hr))
        simp only [runRounds, hne]
        exact ih' _ e'
  · intro rest am hist hne
    have hne' : am.toolCalls.isEmpty = false := by
      cases hc : am.toolCalls with
      | nil => exact absurd hc hne
      | cons a l => simp
    simp [runRounds, hne']

/-- Witness for C2 at a concrete missing-tool call under `cfg0`. -/
theorem c2_tool_failure_is_data_witness :
    shouldExecuteFor cfg0 tcMissing = true
    ∧ (∃ e, ExecuteToolCall cfg0.tools tcMissing = Except.error e)
    ∧ (∃ cause, (toolMsgFor cfg0 tcMissing).content
          = "Error executing tool " ++ tcMissing.name ++ ": " ++ cause)
    ∧ (∃ post, (toolMsgFor cfg0 tcMissing).content = "Error" ++ post) := by
  have hgate : shouldExecuteFor cfg0 tcMissing = true := rfl
  have hfail : ∃ e, ExecuteToolCall cfg0.tools tcMissing = Except.error e :=
    ⟨"tool \x27nope\x27 not found in the available toolset", rfl⟩
  have h := c2_tool_failure_is_data cfg0 tcMissing hgate hfail
  exact ⟨hgate, hfail, h.1, h.2.1⟩

/-- Number of `Session.Save` invocations recorded in an event trace. -/
def saveCount : List AgentEvent → Nat
  | [] => 0
  | AgentEvent.save _ :: rest => saveCount rest + 1
  | _ :: rest => saveCount rest

theorem saveCount_nil : saveCount [] = 0 := rfl

theorem saveCount_cons_llmCall (h : List Message) (rest : List AgentEvent) :
    saveCount (AgentEvent.llmCall h :: rest) = saveCount rest := rfl

theorem saveCount_cons_append (m : Message) (rest : List AgentEvent) :
    saveCount (AgentEvent.append m :: rest) = saveCount rest := rfl

theorem saveCount_cons_save (h : List Message) (rest : List AgentEvent) :
    saveCount (AgentEvent.save h :: rest) = saveCount rest + 1 := rfl

theorem saveCount_append (a b : List AgentEvent) :
    saveCount (a ++ b) = saveCount a + saveCount b := by
  induction a with
  | nil => simp [saveCount]
  | cons e rest ih =>
    rw [List.cons_append]
    cases e with
    | llmCall h => rw [saveCount_cons_llmCall, saveCount_cons_llmCall, ih]
    | append m => rw [saveCount_cons_append, saveCount_cons_append, ih]
    | save h =>
      rw [saveCount_cons_save, saveCount_cons_save, ih]
      omega

theorem saveCount_map_append {α : Type} (g : α → AgentEvent)
    (hg : ∀ x, ∃ m, g x = AgentEvent.append m) (l : List α) :
    saveCount (l.map g) = 0 := by
  induction l with
  | nil => rfl
  | cons m rest ih =>
    obtain ⟨msg, hmsg⟩ := hg m
    simp only [List.map_cons, hmsg]
    simpa [saveCount] using ih

theorem save_not_mem_of_saveCount_zero (l : List AgentEvent) (h : saveCount l = 0)
    (hist : List Message) : AgentEvent.save hist ∉ l := by
  induction l with
  | nil => simp
  | cons e rest ih =>
    cases e with
    | save x => simp [saveCount] at h
    | llmCall x =>
      simp only [saveCount] at h
      simp [ih h]
    | append m =>
      simp only [saveCount] at h
      simp [ih h]

/-- The claim "after every batch of tool results the Session is persisted
before the next LLM invocation", read off an event trace: every `llmCall`
other than the first must have been preceded by a `save` since the
previous `llmCall`.  The Boolean argument records whether a save has
occurred since the last call (initially true: the first call needs no
preceding save). -/
def callsPrecededBySave : List AgentEvent → Bool → Bool
  | [], _ => true
  | AgentEvent.llmCall _ :: rest, savedSinceLastCall =>
      savedSinceLastCall && callsPrecededBySave rest false
  | AgentEvent.save _ :: rest, _ => callsPrecededBySave rest true
  | AgentEvent.append _ :: rest, s => callsPrecededBySave rest s

/-- The user message `ProcessUserInput` appends for a given input. -/
def userMsgOf (input : String) : Message :=
  { role := "user", content := input, toolCalls := [] }

/-- One requested tool call used in concrete runs. -/
def tcA : ToolCall := { toolCallID := "id_1", name := "ls", args := [] }

/-- An assistant round that requests one tool call. -/
def amTc : Message := { role := "assistant", content := "", toolCalls := [tcA] }

/-- A final assistant round with no tool calls. -/
def amDone : Message := { role := "assistant", content := "done", toolCalls := [] }

/-- A two-round script: one tool-call batch, then a plain answer. -/
def script3 : List (Except String Message) := [Except.ok amTc, Except.ok amDone]

/-- C3 counterexample: in the turn driven by `script3` the second LLM
invocation is not preceded by any `save` since the first one — the batch
of tool results is appended and the loop re-invokes the LLM without
persisting.  The turn succeeds and the only `save` of the whole trace is
the one after the final (tool-call-free) assistant answer. -/
theorem c3_counterexample :
    callsPrecededBySave (ProcessUserInput cfg0 script3 "hi" []).2.2 true = false
    ∧ (ProcessUserInput cfg0 script3 "hi" []).2.1 = TurnResult.ok
    ∧ saveCount (ProcessUserInput cfg0 script3 "hi" []).2.2 = 1 := by
  exact ⟨rfl, rfl, rfl⟩

/-- C3 amended: the Session is persisted exactly once per successful
turn, by the `save` that ends the trace, directly after the final
assistant message (the one carrying no tool calls) is appended; no save
happens earlier in the turn, in particular none between a batch of tool
results and the next LLM invocation. -/
theorem c3_amended_save_only_at_turn_end (cfg : AgentCfg)
    (script : List (Except String Message)) (hist : List Message)
    (hok : (runRounds cfg script hist).2.1 = TurnResult.ok) :
    ∃ pre h am,
      (runRounds cfg script hist).2.2
          = pre ++ [AgentEvent.llmCall h, AgentEvent.append am, AgentEvent.save (h ++ [am])]
      ∧ am.toolCalls = []
      ∧ saveCount pre = 0
      ∧ saveCount (runRounds cfg script hist).2.2 = 1
      ∧ (runRounds cfg script hist).1 = h ++ [am] := by
  induction script generalizing hist with
  | nil => simp [runRounds] at hok
  | cons r rest ih =>
    cases r with
    | error e => simp [runRounds] at hok
    | ok am =>
      cases hne : am.toolCalls.isEmpty with
      | true =>
        refine ⟨[], hist, am, ?_, ?_, rfl, ?_, ?_⟩
        · simp [runRounds, hne]
        · simpa using hne
        · simp [runRounds, hne, saveCount]
        · simp [runRounds, hne]
      | false =>
        have hok' : (runRounds cfg rest (hist ++ am :: am.toolCalls.map (toolMsgFor cfg))).2.1
            = TurnResult.ok := by
          simpa [runRounds, hne] using hok
        obtain ⟨pre', h', am', hev, htc, hpre, hcount, hhist⟩ := ih _ hok'
        have hmap : saveCount ((am.toolCalls.map (toolMsgFor cfg)).map AgentEvent.append) = 0 :=
          saveCount_map_append _ (fun x => ⟨x, rfl⟩) _
        refine ⟨AgentEvent.llmCall hist :: AgentEvent.append am ::
            ((am.toolCalls.map (toolMsgFor cfg)).map AgentEvent.append ++ pre'),
          h', am', ?_, htc, ?_, ?_, ?_⟩
        · simp [runRounds, hne, hev]
        · rw [saveCount_cons_llmCall, saveCount_cons_append, saveCount_append, hmap, hpre]
        · simp only [runRounds, hne, Bool.false_eq_true, if_false]
          rw [saveCount_cons_llmCall, saveCount_cons_append, saveCount_append, hmap, hev,
            saveCount_append, hpre, saveCount_cons_llmCall, saveCount_cons_append,
            saveCount_cons_save, saveCount_nil]
        · simp [runRounds, hne, hhist]

/-- Witness for the amended C3 on a concrete successful run. -/
theorem c3_amended_save_only_at_turn_end_witness :
    (runRounds cfg0 script3 [userMsgOf "hi"]).2.1 = TurnResult.ok
    ∧ ∃ pre h am,
      (runRounds cfg0 script3 [userMsgOf "hi"]).2.2
          = pre ++ [AgentEvent.llmCall h, AgentEvent.append am, AgentEvent.save (h ++ [am])]
      ∧ am.toolCalls = []
      ∧ saveCount pre = 0
      ∧ saveCount (runRounds cfg0 script3 [userMsgOf "hi"]).2.2 = 1
      ∧ (runRounds cfg0 script3 [userMsgOf "hi"]).1 = h ++ [am] :=
  ⟨rfl, c3_amended_save_only_at_turn_end cfg0 script3 [userMsgOf "hi"] rfl⟩

/-- A script whose first round requests a tool call and whose second LLM
invocation fails. -/
def script8 : List (Except String Message) := [Except.ok amTc, Except.error "backend down"]

/-- C8 counterexample: when the LLM fails after one completed tool round,
the error is returned (wrapped as "LLM chat failed: ...") and the
in-memory history does hold the user message and the completed round, but
nothing was persisted during the turn: the trace holds no `save` event at
all, so the prior completed round does not "remain persisted" — `Save`
only runs at a successful turn's end. -/
theorem c8_counterexample :
    (ProcessUserInput cfg0 script8 "hi" []).2.1
        = TurnResult.llmError ("LLM chat failed: " ++ "backend down")
    ∧ saveCount (ProcessUserInput cfg0 script8 "hi" []).2.2 = 0
    ∧ (∀ h, AgentEvent.save h ∉ (ProcessUserInput cfg0 script8 "hi" []).2.2)
    ∧ (ProcessUserInput cfg0 script8 "hi" []).1
        = [userMsgOf "hi", amTc, toolMsgFor cfg0 tcA] := by
  refine ⟨rfl, rfl, ?_, rfl⟩
  intro h
  exact save_not_mem_of_saveCount_zero (ProcessUserInput cfg0 script8 "hi" []).2.2 rfl h

/-- Key lemma for C8: if the script consists of completed tool-call
rounds followed by a chat failure, the loop returns the wrapped error;
the trace ends with the failing `llmCall`, so nothing is appended for
that round, the final history is exactly what that call received (the
entry history plus the completed rounds), and no `save` ran. -/
theorem runRounds_llm_error (cfg : AgentCfg) (good post : List (Except String Message))
    (e : String) (hist : List Message)
    (hgood : ∀ r ∈ good, ∃ am, r = Except.ok am ∧ am.toolCalls ≠ []) :
    ∃ mid pre,
      runRounds cfg (good ++ Except.error e :: post) hist
        = (hist ++ mid, TurnResult.llmError ("LLM chat failed: " ++ e),
           pre ++ [AgentEvent.llmCall (hist ++ mid)])
      ∧ saveCount (pre ++ [AgentEvent.llmCall (hist ++ mid)]) = 0 := by
  induction good generalizing hist with
  | nil =>
    exact ⟨[], [], by simp [runRounds], by simp [saveCount]⟩
  | cons r rest ih =>
    obtain ⟨am, ham, htc⟩ := hgood r (List.mem_cons_self r rest)
    subst ham
    have hne : am.toolCalls.isEmpty = false := by
      cases hc : am.toolCalls with
      | nil => exact absurd hc htc
      | cons a l => simp
    obtain ⟨mid', pre', heq, hz⟩ :=
      ih (hist ++ am :: am.toolCalls.map (toolMsgFor cfg))
        (fun r hr => hgood r (List.mem_cons_of_mem _ hr))
    have hmap : saveCount ((am.toolCalls.map (toolMsgFor cfg)).map AgentEvent.append) = 0 :=
      saveCount_map_append _ (fun x => ⟨x, rfl⟩) _
    have hz' : saveCount pre' = 0 := by
      rw [saveCount_append] at hz
      omega
    refine ⟨am :: (am.toolCalls.map (toolMsgFor cfg) ++ mid'),
      AgentEvent.llmCall hist :: AgentEvent.append am ::
        ((am.toolCalls.map (toolMsgFor cfg)).map AgentEvent.append ++ pre'), ?_, ?_⟩
    · simp [runRounds, hne, heq]
    · rw [List.cons_append, List.cons_append, saveCount_cons_llmCall, saveCount_cons_append,
        List.append_assoc, saveCount_append, hmap, saveCount_append, hz',
        saveCount_cons_llmCall, saveCount_nil]

/-- C8 amended: an LLM-capability failure aborts the turn with the
wrapped error; no assistant message is appended for the failing round
(the trace ends at that `llmCall`), the in-memory history still holds the
appended user message and all messages of the prior completed rounds, but
nothing is persisted during the aborted turn (no `save` event occurs; the
durable state is whatever an earlier turn last saved). -/
theorem c8_amended_llm_failure_aborts (cfg : AgentCfg)
    (good post : List (Except String Message)) (e input : String) (hist0 : List Message)
    (hgood : ∀ r ∈ good, ∃ am, r = Except.ok am ∧ am.toolCalls ≠ []) :
    ∃ mid pre,
      ProcessUserInput cfg (good ++ Except.error e :: post) input hist0
        = ((hist0 ++ [userMsgOf input]) ++ mid,
           TurnResult.llmError ("LLM chat failed: " ++ e),
           AgentEvent.append (userMsgOf input) ::
             (pre ++ [AgentEvent.llmCall ((hist0 ++ [userMsgOf input]) ++ mid)]))
      ∧ saveCount (AgentEvent.append (userMsgOf input) ::
             (pre ++ [AgentEvent.llmCall ((hist0 ++ [userMsgOf input]) ++ mid)])) = 0 := by
  obtain ⟨mid, pre, heq, hz⟩ :=
    runRounds_llm_error cfg good post e (hist0 ++ [userMsgOf input]) hgood
  refine ⟨mid, pre, ?_, ?_⟩
  · simp only [userMsgOf] at heq
    simp [ProcessUserInput, userMsgOf, heq]
  · simpa [saveCount] using hz

/-- Witness for the amended C8 on a concrete aborted run. -/
theorem c8_amended_llm_failure_aborts_witness :
    (∀ r ∈ ([Except.ok amTc] : List (Except String Message)),
        ∃ am, r = Except.ok am ∧ am.toolCalls ≠ [])
    ∧ ∃ mid pre,
      ProcessUserInput cfg0 ([Except.ok amTc] ++ Except.error "backend down" :: []) "hi" []
        = (([] ++ [userMsgOf "hi"]) ++ mid,
           TurnResult.llmError ("LLM chat failed: " ++ "backend down"),
           AgentEvent.append (userMsgOf "hi") ::
             (pre ++ [AgentEvent.llmCall (([] ++ [userMsgOf "hi"]) ++ mid)]))
      ∧ saveCount (AgentEvent.append (userMsgOf "hi") ::
             (pre ++ [AgentEvent.llmCall (([] ++ [userMsgOf "hi"]) ++ mid)])) = 0 := by
  have hgood : ∀ r ∈ ([Except.ok amTc] : List (Except String Message)),
      ∃ am, r = Except.ok am ∧ am.toolCalls ≠ [] := by
    intro r hr
    simp only [List.mem_singleton] at hr
    subst hr
    exact ⟨amTc, rfl, by simp [amTc]⟩
  exact ⟨hgood, c8_amended_llm_failure_aborts cfg0 [Except.ok amTc] [] "backend down" "hi" [] hgood⟩

/-- Field lookup in a decoded JSON object, as `encoding/json` matches
struct fields by tag name (first match; encoded objects carry each key
once). -/
def jlookup {α : Type} : List (String × α) → String → Option α
  | [], _ => none
  | (k, v) :: rest, key => if k = key then some v else jlookup rest key

/-- encodeToolCall renders `session.ToolCall` with its struct tags
`tool_call_id`, `name`, `args` (no omitempty: `args` is always present;
a nil and an empty map are both rendered as an object here, a collapse
that is invisible to map-content equality). -/
def encodeToolCall (tc : ToolCall) : Json :=
  Json.obj [("tool_call_id", Json.str tc.toolCallID), ("name", Json.str tc.name),
    ("args", Json.obj tc.args)]

/-- Decoding of a string-typed struct field: an absent field keeps the
zero value "", a present field must be a JSON string. -/
def decodeStringField (fields : List (String × Json)) (key : String) : Except String String :=
  match jlookup fields key with
  | none => Except.ok ""
  | some (Json.str s) => Except.ok s
  | some _ => Except.error ("cannot unmarshal field " ++ key)

/-- Decoding of the `args` map field: absent or null yields the nil map,
an object yields its fields. -/
def decodeArgsField (fields : List (String × Json)) : Except String (List (String × Json)) :=
  match jlookup fields "args" with
  | none => Except.ok []
  | some Json.null => Except.ok []
  | some (Json.obj fs) => Except.ok fs
  | some _ => Except.error "cannot unmarshal field args"

/-- decodeToolCall mirrors unmarshalling one `session.ToolCall`. -/
def decodeToolCall : Json → Except String ToolCall
  | Json.obj fields =>
    (match decodeStringField fields "tool_call_id" with
    | Except.error e => Except.error e
    | Except.ok tcid =>
      match decodeStringField fields "name" with
      | Except.error e => Except.error e
      | Except.ok nm =>
        match decodeArgsField fields with
        | Except.error e => Except.error e
        | Except.ok args => Except.ok { toolCallID := tcid, name := nm, args := args })
  | _ => Except.error "cannot unmarshal tool call"

/-- Elementwise decoding of a JSON array of tool calls. -/
def decodeToolCalls : List Json → Except String (List ToolCall)
  | [] => Except.ok []
  | j :: rest =>
    match decodeToolCall j with
    | Except.error e => Except.error e
    | Except.ok tc =>
      match decodeToolCalls rest with
      | Except.error e => Except.error e
      | Except.ok tcs => Except.ok (tc :: tcs)

/-- Decoding of the `tool_calls` slice field (tagged omitempty): absent
or null yields the nil slice. -/
def decodeToolCallsField (fields : List (String × Json)) : Except String (List ToolCall) :=
  match jlookup fields "tool_calls" with
  | none => Except.ok []
  | some Json.null => Except.ok []
  | some (Json.arr l) => decodeToolCalls l
  | some _ => Except.error "cannot unmarshal field tool_calls"

/-- encodeMessage renders `session.Message` with tags `role`, `content`
and `tool_calls` (omitempty: an empty slice is omitted). -/
def encodeMessage (m : Message) : Json :=
  Json.obj ([("role", Json.str m.role), ("content", Json.str m.content)] ++
    (if m.toolCalls.isEmpty then [] else
      [("tool_calls", Json.arr (m.toolCalls.map encodeToolCall))]))

/-- decodeMessage mirrors unmarshalling one `session.Message`. -/
def decodeMessage : Json → Except String Message
  | Json.obj fields =>
    (match decodeStringField fields "role" with
    | Except.error e => Except.error e
    | Except.ok role =>
      match decodeStringField fields "content" with
      | Except.error e => Except.error e
      | Except.ok content =>
        match decodeToolCallsField fields with
        | Except.error e => Except.error e
        | Except.ok tcs => Except.ok { role := role, content := content, toolCalls := tcs })
  | _ => Except.error "cannot unmarshal message"

/-- Elementwise decoding of the messages array. -/
def decodeMessages : List Json → Except String (List Message)
  | [] => Except.ok []
  | j :: rest =>
    match decodeMessage j with
    | Except.error e => Except.error e
    | Except.ok m =>
      match decodeMessages rest with
      | Except.error e => Except.error e
      | Except.ok ms => Except.ok (m :: ms)

/-- Decoding of the `messages` slice field (no omitempty, but absent and
null still decode to the nil slice). -/
def decodeMessagesField (fields : List (String × Json)) : Except String (List Message) :=
  match jlookup fields "messages" with
  | none => Except.ok []
  | some Json.null => Except.ok []
  | some (Json.arr l) => decodeMessages l
  | some _ => Except.error "cannot unmarshal field messages"

/-- Decoding of a bool-typed struct field. -/
def decodeBoolField (fields : List (String × Json)) (key : String) : Except String Bool :=
  match jlookup fields key with
  | none => Except.ok false
  | some (Json.bool b) => Except.ok b
  | some _ => Except.error ("cannot unmarshal field " ++ key)

/-- encodeSession renders the exported fields of `session.Session` under
their struct tags, as `json.MarshalIndent` does in `Session.Save`. -/
def encodeSession (s : Session) : Json :=
  Json.obj [("name", Json.str s.name),
    ("messages", Json.arr (s.messages.map encodeMessage)),
    ("mode", Json.str s.mode), ("toolset", Json.str s.toolset),
    ("tool_verbosity", Json.str s.toolVerbosity), ("acp", Json.bool s.acp)]

/-- decodeSession mirrors `json.Unmarshal` into a `session.Session`. -/
def decodeSession : Json → Except String Session
  | Json.obj fields =>
    (match decodeStringField fields "name" with
    | Except.error e => Except.error e
    | Except.ok name =>
      match decodeMessagesField fields with
      | Except.error e => Except.error e
      | Except.ok msgs =>
        match decodeStringField fields "mode" with
        | Except.error e => Except.error e
        | Except.ok mode =>
          match decodeStringField fields "toolset" with
          | Except.error e => Except.error e
          | Except.ok ts =>
            match decodeStringField fields "tool_verbosity" with
            | Except.error e => Except.error e
            | Except.ok tv =>
              match decodeBoolField fields "acp" with
              | Except.error e => Except.error e
              | Except.ok acp =>
                Except.ok (Session.mk name msgs mode ts tv acp))
  | _ => Except.error "cannot unmarshal session"

/-- Session.Save mirrors `session.Save`: serialize the session and write
it to the store under the session's name (the file derived from the
session id).  The durable store is modelled as an association list from
name to encoded JSON document. -/
def Session.Save (store : List (String × Json)) (s : Session) : List (String × Json) :=
  (s.name, encodeSession s) :: store

/-- Session.Load mirrors `session.Load`: read the stored document for the
given name (a missing file is an error) and unmarshal it. -/
def Session.Load (store : List (String × Json)) (name : String) : Except String Session :=
  match jlookup store name with
  | none => Except.error ("could not read session file " ++ name)
  | some j => decodeSession j

theorem decodeToolCall_encode (tc : ToolCall) :
    decodeToolCall (encodeToolCall tc) = Except.ok tc := by
  simp [decodeToolCall, encodeToolCall, decodeStringField, decodeArgsField, jlookup]

theorem decodeToolCalls_map (l : List ToolCall) :
    decodeToolCalls (l.map encodeToolCall) = Except.ok l := by
  induction l with
  | nil => rfl
  | cons tc rest ih => simp [decodeToolCalls, decodeToolCall_encode, ih]

theorem decodeMessage_encode (m : Message) :
    decodeMessage (encodeMessage m) = Except.ok m := by
  cases hc : m.toolCalls with
  | nil =>
    simp [decodeMessage, encodeMessage, hc, decodeStringField, decodeToolCallsField, jlookup]
    cases m
    simp_all
  | cons tc rest =>
    simp [decodeMessage, encodeMessage, hc, decodeStringField, decodeToolCallsField, jlookup,
      decodeToolCalls_map, decodeToolCall_encode]
    cases m
    simp_all [decodeToolCalls, decodeToolCall_encode, decodeToolCalls_map]

theorem decodeMessages_map (l : List Message) :
    decodeMessages (l.map encodeMessage) = Except.ok l := by
  induction l with
  | nil => rfl
  | cons m rest ih => simp [decodeMessages, decodeMessage_encode, ih]

theorem decodeSession_encode (s : Session) :
    decodeSession (encodeSession s) = Except.ok s := by
  simp [decodeSession, encodeSession, decodeStringField, decodeMessagesField, decodeBoolField,
    jlookup, decodeMessages_map]

/-- C7: `Save` followed by `Load` on the same session id returns a
session equal to the saved one — in particular its message sequence is
identical: same length and, position by position, the same role, content
and toolCalls (ids, names and args). -/
theorem c7_save_load_roundtrip (store : List (String × Json)) (s : Session) :
    Session.Load (Session.Save store s) s.name = Except.ok s := by
  simp [Session.Save, Session.Load, jlookup, decodeSession_encode]

/-- Base-10 digits of a natural number, most significant first, as
`fmt.Sprintf` with verb d renders a nonnegative value (0 renders as the
single digit 0). -/
def natDigits (n : Nat) : List Nat :=
  if _h : n < 10 then [n]
  else natDigits (n / 10) ++ [n % 10]
decreasing_by
  exact Nat.div_lt_self (by omega) (by omega)

def digitChar : Nat → Char
  | 0 => '0'
  | 1 => '1'
  | 2 => '2'
  | 3 => '3'
  | 4 => '4'
  | 5 => '5'
  | 6 => '6'
  | 7 => '7'
  | 8 => '8'
  | _ => '9'

/-- Decimal rendering of a natural number. -/
def natRepr (n : Nat) : String := String.mk ((natDigits n).map digitChar)

/-- Decimal rendering of an integer, as `fmt.Sprintf` with verb d: a
minus sign followed by the digits for negative values. -/
def intRepr (n : Int) : String :=
  if n < 0 then "-" ++ natRepr (-n).toNat else natRepr n.toNat

def ofDigits (l : List Nat) : Nat := l.foldl (fun a d => a * 10 + d) 0

theorem ofDigits_append_single (l : List Nat) (d : Nat) :
    ofDigits (l ++ [d]) = ofDigits l * 10 + d := by
  simp [ofDigits, List.foldl_append]

theorem ofDigits_natDigits (n : Nat) : ofDigits (natDigits n) = n := by
  induction n using Nat.strong_induction_on with
  | _ n ih =>
    rw [natDigits]
    split
    · simp [ofDigits]
    · rename_i h
      rw [ofDigits_append_single, ih (n / 10) (Nat.div_lt_self (by omega) (by omega))]
      omega

theorem natDigits_lt_ten (n : Nat) : ∀ d ∈ natDigits n, d < 10 := by
  induction n using Nat.strong_induction_on with
  | _ n ih =>
    rw [natDigits]
    split
    · rename_i h
      intro d hd
      simp at hd
      omega
    · rename_i h
      intro d hd
      simp only [List.mem_append, List.mem_singleton] at hd
      cases hd with
      | inl hd => exact ih (n / 10) (Nat.div_lt_self (by omega) (by omega)) d hd
      | inr hd => subst hd; exact Nat.mod_lt n (by omega)

theorem digitChar_inj : ∀ a < 10, ∀ b < 10, digitChar a = digitChar b → a = b := by decide

theorem map_digitChar_inj :
    ∀ l1 l2 : List Nat, (∀ d ∈ l1, d < 10) → (∀ d ∈ l2, d < 10) →
      l1.map digitChar = l2.map digitChar → l1 = l2 := by
  intro l1
  induction l1 with
  | nil =>
    intro l2 _ _ h
    cases l2 <;> simp_all
  | cons a rest ih =>
    intro l2 h1 h2 h
    cases l2 with
    | nil => simp_all
    | cons b rest2 =>
      simp only [List.map_cons, List.cons.injEq] at h
      have ha : a < 10 := h1 a (List.mem_cons_self a rest)
      have hb : b < 10 := h2 b (List.mem_cons_self b rest2)
      have hab : a = b := digitChar_inj a ha b hb h.1
      have htail : rest = rest2 :=
        ih rest2 (fun d hd => h1 d (List.mem_cons_of_mem _ hd))
          (fun d hd => h2 d (List.mem_cons_of_mem _ hd)) h.2
      rw [hab, htail]

theorem natRepr_inj (a b : Nat) (h : natRepr a = natRepr b) : a = b := by
  have hdata : (natDigits a).map digitChar = (natDigits b).map digitChar := by
    simpa [natRepr] using congrArg String.data h
  have hdig : natDigits a = natDigits b :=
    map_digitChar_inj _ _ (natDigits_lt_ten a) (natDigits_lt_ten b) hdata
  calc a = ofDigits (natDigits a) := (ofDigits_natDigits a).symm
    _ = ofDigits (natDigits b) := by rw [hdig]
    _ = b := ofDigits_natDigits b

theorem digitChar_lt_ne_underscore : ∀ d < 10, digitChar d ≠ '_' := by decide

theorem underscore_not_mem_natRepr (n : Nat) : '_' ∉ (natRepr n).data := by
  intro hmem
  rw [show (natRepr n).data = (natDigits n).map digitChar from rfl] at hmem
  simp only [List.mem_map] at hmem
  obtain ⟨d, hdmem, hd⟩ := hmem
  exact digitChar_lt_ne_underscore d (natDigits_lt_ten n d hdmem) hd

theorem underscore_not_mem_intRepr (n : Int) : '_' ∉ (intRepr n).data := by
  simp only [intRepr]
  split
  · intro hmem
    rw [show ("-" ++ natRepr (-n).toNat).data = "-".data ++ (natRepr (-n).toNat).data from rfl]
      at hmem
    simp only [List.mem_append] at hmem
    cases hmem with
    | inl hmem => exact absurd hmem (by decide)
    | inr hmem => exact underscore_not_mem_natRepr _ hmem
  · exact underscore_not_mem_natRepr _

theorem split_at_unique_sep {α : Type} (sep : α) :
    ∀ a1 a2 b1 b2 : List α, sep ∉ a1 → sep ∉ a2 →
      a1 ++ sep :: b1 = a2 ++ sep :: b2 → a1 = a2 ∧ b1 = b2 := by
  intro a1
  induction a1 with
  | nil =>
    intro a2 b1 b2 h1 h2 h
    cases a2 with
    | nil => simpa using h
    | cons y ys =>
      simp only [List.nil_append, List.cons_append, List.cons.injEq] at h
      exact absurd (h.1 ▸ List.mem_cons_self y ys) h2
  | cons x xs ih =>
    intro a2 b1 b2 h1 h2 h
    cases a2 with
    | nil =>
      simp only [List.nil_append, List.cons_append, List.cons.injEq] at h
      exact absurd (h.1.symm ▸ List.mem_cons_self x xs) h1
    | cons y ys =>
      simp only [List.cons_append, List.cons.injEq] at h
      have hx : sep ∉ xs := fun hm => h1 (List.mem_cons_of_mem _ hm)
      have hy : sep ∉ ys := fun hm => h2 (List.mem_cons_of_mem _ hm)
      obtain ⟨he1, he2⟩ := ih ys b1 b2 hx hy h.2
      exact ⟨by rw [h.1, he1], he2⟩

/-- Two's-complement wraparound of Go's int64 arithmetic. -/
def int64wrap (n : Int) : Int := (n + 2 ^ 63) % 2 ^ 64 - 2 ^ 63

theorem int64wrap_eq_self (n : Int) (h1 : -(2 ^ 63) ≤ n) (h2 : n < 2 ^ 63) :
    int64wrap n = n := by
  have : (n + 2 ^ 63) % 2 ^ 64 = n + 2 ^ 63 :=
    Int.emod_eq_of_lt (by omega) (by omega)
  rw [int64wrap, this]
  omega

/-- nextSessionID mirrors `acpServer.nextSessionID`: increment the int64
sequence counter, then build the id "sess_<unixNano>_<seq>" from the
current timestamp and the incremented counter. -/
def nextSessionID (nowNano : Int) (seq : Int) : String × Int :=
  let seqNext := int64wrap (seq + 1)
  ("sess_" ++ intRepr nowNano ++ "_" ++ intRepr seqNext, seqNext)

/-- The sequence counter after k id generations, starting from the zero
value `sessionIDSeq = 0` of a fresh server; `ts` gives the nanosecond
timestamp observed by the k-th generation. -/
def seqStateAfter (ts : Nat → Int) : Nat → Int
  | 0 => 0
  | k + 1 => (nextSessionID (ts k) (seqStateAfter ts k)).2

/-- The k-th session id generated by a server (0-indexed call count). -/
def idAt (ts : Nat → Int) (k : Nat) : String :=
  (nextSessionID (ts k) (seqStateAfter ts k)).1

theorem seqStateAfter_eq (ts : Nat → Int) (k : Nat) (h : (k : Int) < 2 ^ 63) :
    seqStateAfter ts k = k := by
  induction k with
  | zero => rfl
  | succ n ih =>
    have hn : (n : Int) < 2 ^ 63 := by push_cast at h ⊢; omega
    simp only [seqStateAfter, nextSessionID, ih hn]
    exact int64wrap_eq_self _ (by omega) (by push_cast at h ⊢; omega)

theorem intRepr_ofNat (n : Nat) : intRepr (n : Int) = natRepr n := by
  simp [intRepr, Int.toNat_ofNat]

theorem idAt_eq (ts : Nat → Int) (k : Nat) (hk : (k : Int) + 1 < 2 ^ 63) :
    idAt ts k = "sess_" ++ intRepr (ts k) ++ "_" ++ natRepr (k + 1) := by
  have hseq : seqStateAfter ts k = k := seqStateAfter_eq ts k (by omega)
  have hwrap : int64wrap ((k : Int) + 1) = (k : Int) + 1 :=
    int64wrap_eq_self _ (by omega) hk
  have hcast : ((k : Int) + 1) = ((k + 1 : Nat) : Int) := by push_cast; ring
  simp only [idAt, nextSessionID, hseq]
  rw [hwrap, hcast, intRepr_ofNat]

theorem sessionID_data_normal (t : Int) (s : String) :
    ("sess_" ++ intRepr t ++ "_" ++ s).data
      = "sess_".data ++ ((intRepr t).data ++ '_' :: s.data) := by
  rw [show ("sess_" ++ intRepr t ++ "_" ++ s).data
      = (("sess_".data ++ (intRepr t).data) ++ ['_']) ++ s.data from rfl]
  simp [List.append_assoc]

/-- C10: the sequence counter is incremented before being embedded (the
k-th generated id, counting from 0, carries the decimal suffix k+1), so
within the int64 range any two ids generated by the same server instance
carry different sequence suffixes and are distinct strings — even when
their nanosecond timestamps coincide, and whatever timestamps the clock
yields. -/
theorem c10_session_ids_distinct (ts : Nat → Int) (i j : Nat)
    (hij : i ≠ j) (hi : (i : Int) + 1 < 2 ^ 63) (hj : (j : Int) + 1 < 2 ^ 63) :
    idAt ts i = "sess_" ++ intRepr (ts i) ++ "_" ++ natRepr (i + 1)
    ∧ natRepr (i + 1) ≠ natRepr (j + 1)
    ∧ idAt ts i ≠ idAt ts j := by
  have hsuf : natRepr (i + 1) ≠ natRepr (j + 1) := by
    intro h
    have := natRepr_inj _ _ h
    omega
  refine ⟨idAt_eq ts i hi, hsuf, ?_⟩
  rw [idAt_eq ts i hi, idAt_eq ts j hj]
  intro heq
  have hd := congrArg String.data heq
  rw [sessionID_data_normal, sessionID_data_normal] at hd
  have hd' := List.append_cancel_left hd
  obtain ⟨_, hsufeq⟩ := split_at_unique_sep '_' (intRepr (ts i)).data (intRepr (ts j)).data
    (natRepr (i + 1)).data (natRepr (j + 1)).data
    (underscore_not_mem_intRepr _) (underscore_not_mem_intRepr _) hd'
  exact hsuf (by simpa using congrArg String.mk hsufeq)

/-- Witness for C10 at two generations in the same nanosecond. -/
theorem c10_session_ids_distinct_witness :
    (0 : Nat) ≠ 1
    ∧ ((0 : Nat) : Int) + 1 < 2 ^ 63
    ∧ ((1 : Nat) : Int) + 1 < 2 ^ 63
    ∧ (idAt (fun _ => 1700000000000000000) 0
          = "sess_" ++ intRepr 1700000000000000000 ++ "_" ++ natRepr (0 + 1)
        ∧ natRepr (0 + 1) ≠ natRepr (1 + 1)
        ∧ idAt (fun _ => 1700000000000000000) 0 ≠ idAt (fun _ => 1700000000000000000) 1) := by
  refine ⟨by decide, by norm_num, by norm_num, ?_⟩
  exact c10_session_ids_distinct (fun _ => 1700000000000000000) 0 1
    (by decide) (by norm_num) (by norm_num)

/-- A content block of a `session/prompt` request (`acp.contentBlock`).
Absent JSON fields leave the Go zero values ("" and nil). -/
structure ContentBlock where
  type : String
  text : String
  uri : String
  name : String
  mimeType : String
  title : String
  description : String
  size : Option Int

/-- resourceInfoFor builds the textual description `extractUserText`
synthesizes for a resource_link block.  `readFile` stands for
`readFileFromURI` (the file system); Go's 50000-byte content cap is
modelled at character granularity. -/
def resourceInfoFor (readFile : String → Except String String) (b : ContentBlock) : String :=
  let info := "=== Resource: " ++ b.name ++ " ===\n"
  let info := info ++ (if b.title ≠ "" then "Title: " ++ b.title ++ "\n" else "")
  let info := info ++ (if b.description ≠ "" then "Description: " ++ b.description ++ "\n" else "")
  let info := info ++ "URI: " ++ b.uri ++ "\n"
  let info := info ++ (if b.mimeType ≠ "" then "Type: " ++ b.mimeType ++ "\n" else "")
  let info := info ++
    (match b.size with
    | some n => "Size: " ++ intRepr n ++ " bytes\n"
    | none => "")
  let info := info ++
    (if "file://".isPrefixOf b.uri then
      match readFile b.uri with
      | Except.error e => "\n[Error reading file: " ++ e ++ "]\n"
      | Except.ok content =>
        let content :=
          if content.length > 50000 then
            content.take 50000 ++ "\n\n[... truncated to 50KB ...]"
          else content
        "\n--- File Contents ---\n" ++ content ++ "\n--- End of File ---\n"
    else "\n[External resource - content not available]\n")
  info ++ "=== End Resource ===\n"

/-- An ASCII whitespace character; `strings.TrimSpace` also strips the
rarer Unicode space code points, which no claim here exercises. -/
def isSpaceChar (c : Char) : Bool :=
  c = ' ' || c = '\t' || c = '\n' || c = '\r'

/-- trimSpace models `strings.TrimSpace`: drop leading and trailing
whitespace. -/
def trimSpace (s : String) : String :=
  String.mk (((s.data.dropWhile isSpaceChar).reverse.dropWhile isSpaceChar).reverse)

/-- The parts list accumulated by `extractUserText`: a text block
contributes its text when non-blank under `strings.TrimSpace`, a
resource_link block contributes its synthesized description, all other
block types contribute nothing. -/
def extractParts (readFile : String → Except String String) :
    List ContentBlock → List String
  | [] => []
  | b :: rest =>
    if b.type = "text" then
      (if trimSpace b.text ≠ "" then b.text :: extractParts readFile rest
       else extractParts readFile rest)
    else if b.type = "resource_link" then
      resourceInfoFor readFile b :: extractParts readFile rest
    else extractParts readFile rest

/-- extractUserText mirrors `acp.extractUserText`: join the contributed
parts with newlines (`strings.Join`). -/
def extractUserText (readFile : String → Except String String)
    (blocks : List ContentBlock) : String :=
  String.intercalate "\n" (extractParts readFile blocks)

/-- The error object of a JSON-RPC response (`acp.jsonrpcError`). -/
structure JsonrpcError where
  code : Int
  message : String
  data : Option Json

/-- The response envelope (`acp.jsonrpcResponse`).  `id`, `result` and
`error` carry the omitempty tag; a `none` id stands for Go's nil
interface value. -/
structure JsonrpcResponse where
  jsonrpc : String
  id : Option Json
  result : Option Json
  error : Option JsonrpcError

/-- serializeError renders `jsonrpcError` under `encoding/json`: `code`
and `message` always, `data` dropped when nil (omitempty). -/
def serializeError (e : JsonrpcError) : Json :=
  Json.obj ([("code", Json.num e.code), ("message", Json.str e.message)] ++
    (match e.data with
    | none => []
    | some d => [("data", d)]))

/-- serializeResponse renders `jsonrpcResponse` under `encoding/json`
omitempty semantics: a nil id, result or error field is omitted from the
object — not emitted as null. -/
def serializeResponse (r : JsonrpcResponse) : Json :=
  Json.obj ([("jsonrpc", Json.str r.jsonrpc)] ++
    (match r.id with
    | none => []
    | some v => [("id", v)]) ++
    (match r.result with
    | none => []
    | some v => [("result", v)]) ++
    (match r.error with
    | none => []
    | some e => [("error", serializeError e)]))

/-- The frame `writeResponseOK` hands to `writeFramedJSON`. -/
def okFrame (id : Option Json) (result : Json) : Json :=
  serializeResponse { jsonrpc := "2.0", id := id, result := some result, error := none }

/-- The frame `writeResponseError` hands to `writeFramedJSON`. -/
def errFrame (id : Option Json) (code : Int) (msg : String) (data : Option Json) : Json :=
  serializeResponse
    { jsonrpc := "2.0", id := id, result := none,
      error := some { code := code, message := msg, data := data } }

/-- The frame `writeNotification` hands to `writeFramedJSON`: a map with
`jsonrpc`, `method` and `params`, no id. -/
def notificationFrame (method : String) (params : Json) : Json :=
  Json.obj [("jsonrpc", Json.str "2.0"), ("method", Json.str method), ("params", params)]

/-- Parameters of the user_message_chunk replay notification. -/
def userChunkParams (sid text : String) : Json :=
  Json.obj [("sessionId", Json.str sid),
    ("update", Json.obj [("sessionUpdate", Json.str "user_message_chunk"),
      ("content", Json.obj [("type", Json.str "text"), ("text", Json.str text)])])]

/-- Parameters of an agent_message_chunk notification
(`sendAgentMessageChunk`). -/
def agentChunkParams (sid text : String) : Json :=
  Json.obj [("sessionId", Json.str sid),
    ("update", Json.obj [("sessionUpdate", Json.str "agent_message_chunk"),
      ("content", Json.obj [("type", Json.str "text"), ("text", Json.str text)])])]

/-- Parameters of a tool_call notification (`sendToolCallNotification`). -/
def toolCallParams (sid : String) (tc : ToolCall) : Json :=
  Json.obj [("sessionId", Json.str sid),
    ("update", Json.obj [("sessionUpdate", Json.str "tool_call"),
      ("toolCall", Json.obj [("id", Json.str tc.toolCallID), ("name", Json.str tc.name),
        ("args", Json.obj tc.args)])])]

/-- Parameters of a tool_result notification
(`sendToolResultNotification`). -/
def toolResultParams (sid tcid result : String) : Json :=
  Json.obj [("sessionId", Json.str sid),
    ("update", Json.obj [("sessionUpdate", Json.str "tool_result"),
      ("toolResult", Json.obj [("toolCallId", Json.str tcid), ("result", Json.str result)])])]

/-- replayMsg mirrors one iteration of the replay loop in
`handleSessionLoad`: a user message emits one user-chunk notification; an
assistant message emits an agent-chunk notification only when its content
is non-empty, followed by one tool-call notification per attached
ToolCall; a tool message emits one tool-result notification keyed by its
first ToolCall when it has any, and nothing otherwise; any other role
emits nothing. -/
def replayMsg (sid : String) (m : Message) : List Json :=
  if m.role = "user" then
    [notificationFrame "session/update" (userChunkParams sid m.content)]
  else if m.role = "assistant" then
    (if m.content ≠ "" then
      [notificationFrame "session/update" (agentChunkParams sid m.content)]
     else []) ++
    m.toolCalls.map (fun tc => notificationFrame "session/update" (toolCallParams sid tc))
  else if m.role = "tool" then
    match m.toolCalls with
    | [] => []
    | tc :: _ =>
      [notificationFrame "session/update" (toolResultParams sid tc.toolCallID m.content)]
  else []

/-- The state of `acpServer` plus the external collaborators its handlers
consult: the session registry, the int64 id sequence counter, the durable
session store, the clock (nanosecond timestamps consumed by session/new),
the scripts of LLM answers (one per session/prompt), the agent's tool
configuration, the file system, and the agent session's metadata copied
into new sessions. -/
structure ServerState where
  sessions : List (String × Session)
  sessionIDSeq : Int
  store : List (String × Json)
  clock : List Int
  scripts : List (List (Except String Message))
  agentCfg : AgentCfg
  readFile : String → Except String String
  agentMode : String
  agentToolset : String
  agentVerbosity : String
  agentAcp : Bool

/-- The result object `handleInitialize` marshals. -/
def initResult : Json :=
  Json.obj [("protocolVersion", Json.num 1),
    ("agentCapabilities", Json.obj [("loadSession", Json.bool true),
      ("promptCapabilities", Json.obj [("audio", Json.bool false),
        ("embeddedContext", Json.bool false), ("image", Json.bool false)])]),
    ("authMethods", Json.arr [])]

/-- handleSessionNew: allocate the next session id, build an empty
session seeded with the agent's metadata, insert it into the registry and
respond with the id. -/
def handleSessionNew (st : ServerState) (reqId : Option Json) : ServerState × List Json :=
  let nowNano := st.clock.headD 0
  let r := nextSessionID nowNano st.sessionIDSeq
  let sess : Session :=
    { name := r.1,
      messages := [],
      mode := st.agentMode,
      toolset := st.agentToolset,
      toolVerbosity := st.agentVerbosity,
      acp := st.agentAcp }
  let stNext : ServerState :=
    { st with
      sessions := (r.1, sess) :: st.sessions,
      sessionIDSeq := r.2,
      clock := st.clock.tail }
  (stNext, [okFrame reqId (Json.obj [("sessionId", Json.str r.1)])])

/-- handleSessionLoad: restore the session from durable storage (an
unknown id yields invalid-params -32602), insert it into the registry,
replay its history as notifications in order, then respond ok null. -/
def handleSessionLoad (st : ServerState) (reqId : Option Json) (sessionId : String) :
    ServerState × List Json :=
  match Session.Load st.store sessionId with
  | Except.error e =>
      (st, [errFrame reqId (-32602) "Invalid params" (some (Json.str ("session not found: " ++ e)))])
  | Except.ok sess =>
      ({ st with sessions := (sessionId, sess) :: st.sessions },
       sess.messages.flatMap (replayMsg sessionId) ++ [okFrame reqId Json.null])

/-- handleSessionPrompt: resolve the session (unknown id yields
invalid-params -32602), extract the prompt text, and run
`ProcessUserInput` on the session's history with the ACP callback set
(which always answers the tool gate affirmatively).  The mutated session
replaces the registry entry; on success the loop's final save lands in
the durable store and the response is the end_turn stop reason; an LLM
failure yields internal-error -32603.  The streamed
agent-chunk/tool-call/tool-result notifications the callbacks emit are
not modelled here — only the replayed ones of session/load are. -/
def handleSessionPrompt (st : ServerState) (reqId : Option Json) (sessionId : String)
    (blocks : List ContentBlock) : ServerState × List Json :=
  match jlookup st.sessions sessionId with
  | none => (st, [errFrame reqId (-32602) "Invalid params" (some (Json.str "unknown sessionId"))])
  | some sess =>
    let userText := extractUserText st.readFile blocks
    let acpCfg : AgentCfg :=
      { st.agentCfg with shouldExecuteTool := some (fun _ => true) }
    let r := ProcessUserInput acpCfg (st.scripts.headD []) userText sess.messages
    let sessNext : Session := { sess with messages := r.1 }
    let stNext : ServerState :=
      { st with
        sessions := (sessionId, sessNext) :: st.sessions,
        scripts := st.scripts.tail,
        store := match r.2.1 with
          | TurnResult.ok => Session.Save st.store sessNext
          | _ => st.store }
    let frames : List Json :=
      match r.2.1 with
      | TurnResult.llmError e =>
          [errFrame reqId (-32603) "Internal error"
            (some (Json.str ("error processing user input: " ++ e)))]
      | _ => [okFrame reqId (Json.obj [("stopReason", Json.str "end_turn")])]
    (stNext, frames)

/-- An input line of the server's read loop, after the framing/parsing
step that this embedding abstracts: an empty line, a line that fails to
parse as the request envelope, or a parsed request dispatched by method
name (the per-method parameter structs baked into the constructors). -/
inductive InLine where
  | empty
  | malformed
  | initReq (id : Option Json)
  | sessionNew (id : Option Json)
  | sessionLoad (id : Option Json) (sessionId : String)
  | sessionPrompt (id : Option Json) (sessionId : String) (prompt : List ContentBlock)
  | unknown (id : Option Json) (method : String)

/-- serverStep is one iteration of `Run`'s read loop: the new state and
the frames written while handling the line. -/
def serverStep (st : ServerState) : InLine → ServerState × List Json
  | InLine.empty => (st, [])
  | InLine.malformed => (st, [errFrame none (-32700) "Parse error" none])
  | InLine.initReq id => (st, [okFrame id initResult])
  | InLine.sessionNew id => handleSessionNew st id
  | InLine.sessionLoad id sid => handleSessionLoad st id sid
  | InLine.sessionPrompt id sid blocks => handleSessionPrompt st id sid blocks
  | InLine.unknown id _ => (st, [errFrame id (-32601) "Method not found" none])

/-- serverRun is `Run`'s read loop over a finite input: the concatenation
of all frames written, in order. -/
def serverRun (st : ServerState) : List InLine → List Json
  | [] => []
  | l :: rest =>
    ((serverStep st l).2) ++ serverRun (serverStep st l).1 rest

/-- The top-level keys of an object frame. -/
def objFields : Json → List (String × Json)
  | Json.obj fs => fs
  | _ => []

/-- C5 counterexample: the parse-error frame the server writes has no
`id` key at all — `writeResponseError` passes a nil id and the response
struct's `id,omitempty` tag drops the nil interface value — so the
frame's id field is not null as the claim states; it is absent. -/
theorem c5_counterexample :
    objFields (errFrame none (-32700) "Parse error" none)
        = [("jsonrpc", Json.str "2.0"),
           ("error", Json.obj [("code", Json.num (-32700)), ("message", Json.str "Parse error")])]
    ∧ jlookup (objFields (errFrame none (-32700) "Parse error" none)) "id" ≠ some Json.null := by
  refine ⟨rfl, ?_⟩
  have h : jlookup (objFields (errFrame none (-32700) "Parse error" none)) "id"
      = (none : Option Json) := rfl
  rw [h]
  simp

/-- C5 amended: a line that fails to parse as the request envelope makes
the server write exactly one error frame, carrying code -32700 and no
id key (the nil id is dropped by omitempty serialization rather than
emitted as null), with the server state unchanged, and the loop continues
to handle the remaining lines exactly as if the malformed line had not
been read. -/
theorem c5_parse_error_frame_and_continue (st : ServerState) (rest : List InLine) :
    serverRun st (InLine.malformed :: rest)
        = errFrame none (-32700) "Parse error" none :: serverRun st rest
    ∧ jlookup (objFields (errFrame none (-32700) "Parse error" none)) "error"
        = some (Json.obj [("code", Json.num (-32700)), ("message", Json.str "Parse error")])
    ∧ jlookup (objFields (errFrame none (-32700) "Parse error" none)) "id" = none := by
  refine ⟨?_, rfl, rfl⟩
  simp [serverRun, serverStep]

/-- The number of replay notifications the claim's amended count assigns
to one stored message. -/
def replayCount (m : Message) : Nat :=
  if m.role = "user" then 1
  else if m.role = "assistant" then
    (if m.content = "" then 0 else 1) + m.toolCalls.length
  else if m.role = "tool" then
    (if m.toolCalls.isEmpty then 0 else 1)
  else 0

theorem replayMsg_length (sid : String) (m : Message) :
    (replayMsg sid m).length = replayCount m := by
  unfold replayMsg replayCount
  by_cases hu : m.role = "user"
  · simp [hu]
  · by_cases ha : m.role = "assistant"
    · by_cases hc : m.content = "" <;> simp [hu, ha, hc, Nat.add_comm]
    · by_cases ht : m.role = "tool"
      · cases htc : m.toolCalls <;> simp [hu, ha, ht, htc]
      · simp [hu, ha, ht]

theorem length_flatMap_replay (sid : String) (l : List Message) :
    (l.flatMap (replayMsg sid)).length = (l.map replayCount).sum := by
  induction l with
  | nil => rfl
  | cons m rest ih => simp [List.flatMap_cons, replayMsg_length, ih]

/-- C4 amended: loading a stored session replays its history as exactly
the per-message notification groups, in original message order, all
before the final ok response; a user message contributes one
notification, an assistant message one agent chunk iff its content is
non-empty plus one tool-call notification per attached ToolCall, a tool
message one tool-result notification iff it carries at least one
ToolCall, and any other role nothing — so the total is the sum of these
counts, which equals the message count K only when every message's group
has size one. -/
theorem c4_amended_replay_shape (st : ServerState) (reqId : Option Json) (sid : String)
    (sess : Session) (h : Session.Load st.store sid = Except.ok sess) :
    (handleSessionLoad st reqId sid).2
        = sess.messages.flatMap (replayMsg sid) ++ [okFrame reqId Json.null]
    ∧ (∀ m ∈ sess.messages, (replayMsg sid m).length = replayCount m)
    ∧ (sess.messages.flatMap (replayMsg sid)).length = (sess.messages.map replayCount).sum := by
  refine ⟨?_, fun m _ => replayMsg_length sid m, length_flatMap_replay sid sess.messages⟩
  simp [handleSessionLoad, h]

/-- A stored session whose single assistant message has non-empty content
and one tool call. -/
def sessC4 : Session :=
  { name := "s1",
    messages := [{ role := "assistant", content := "hi", toolCalls := [tcA] }],
    mode := "auto",
    toolset := "default",
    toolVerbosity := "none",
    acp := true }

/-- A server state with no live sessions and nothing configured. -/
def stEmpty : ServerState :=
  { sessions := [],
    sessionIDSeq := 0,
    store := [],
    clock := [],
    scripts := [],
    agentCfg := cfg0,
    readFile := fun _ => Except.error "no such file",
    agentMode := "auto",
    agentToolset := "default",
    agentVerbosity := "none",
    agentAcp := true }

/-- A server whose durable store holds `sessC4` under "s1". -/
def stC4 : ServerState := { stEmpty with store := Session.Save [] sessC4 }

/-- C4 counterexample: a stored history of K = 1 messages (one assistant
message with non-empty content and one attached ToolCall) is replayed as
2 notifications (an agent chunk and a tool call), not K = 1; the claim's
count is off whenever an assistant message carries both non-empty content
and tool calls. -/
theorem c4_counterexample :
    sessC4.messages.length = 1
    ∧ (handleSessionLoad stC4 (some (Json.num 1)) "s1").2
        = sessC4.messages.flatMap (replayMsg "s1") ++ [okFrame (some (Json.num 1)) Json.null]
    ∧ (sessC4.messages.flatMap (replayMsg "s1")).length = 2 := by
  exact ⟨rfl, rfl, rfl⟩

/-- Witness for the amended C4 on the concrete stored session. -/
theorem c4_amended_replay_shape_witness :
    Session.Load stC4.store "s1" = Except.ok sessC4
    ∧ ((handleSessionLoad stC4 (some (Json.num 1)) "s1").2
        = sessC4.messages.flatMap (replayMsg "s1") ++ [okFrame (some (Json.num 1)) Json.null]
    ∧ (∀ m ∈ sessC4.messages, (replayMsg "s1" m).length = replayCount m)
    ∧ (sessC4.messages.flatMap (replayMsg "s1")).length
        = (sessC4.messages.map replayCount).sum) :=
  ⟨rfl, c4_amended_replay_shape stC4 (some (Json.num 1)) "s1" sessC4 rfl⟩

theorem extractParts_nil (readFile : String → Except String String)
    (blocks : List ContentBlock)
    (h : ∀ b ∈ blocks, (b.type = "text" ∧ trimSpace b.text = "") ∨
        (b.type ≠ "text" ∧ b.type ≠ "resource_link")) :
    extractParts readFile blocks = [] := by
  induction blocks with
  | nil => rfl
  | cons b rest ih =>
    have hrest := ih (fun x hx => h x (List.mem_cons_of_mem _ hx))
    obtain hb | hb := h b (List.mem_cons_self b rest)
    · simp [extractParts, hb.1, hb.2, hrest]
    · simp [extractParts, hb.1, hb.2, hrest]

theorem runRounds_first_event (cfg : AgentCfg) (resp : Except String Message)
    (rest : List (Except String Message)) (hist : List Message) :
    ∃ t, (runRounds cfg (resp :: rest) hist).2.2 = AgentEvent.llmCall hist :: t := by
  cases resp with
  | error e => exact ⟨[], by simp [runRounds]⟩
  | ok am =>
    cases hne : am.toolCalls.isEmpty with
    | true =>
      exact ⟨[AgentEvent.append am, AgentEvent.save (hist ++ [am])],
        by simp [runRounds, hne]⟩
    | false =>
      exact ⟨AgentEvent.append am ::
          (am.toolCalls.map (AgentEvent.append ∘ toolMsgFor cfg) ++
            (runRounds cfg rest (hist ++ am :: am.toolCalls.map (toolMsgFor cfg))).2.2),
        by simp [runRounds, hne]⟩

/-- C9: a prompt whose content blocks contribute no text (empty array,
only unsupported block types, or only text blocks blank after trimming)
is not rejected: the extracted text is empty, the registry session gains
a user message with empty content on top of its prior history, the
response is the normal end_turn one (or internal-error only if the LLM
itself fails — never an invalid-params rejection), and the LLM backend is
invoked with the history ending in that empty user message. -/
theorem c9_empty_prompt_not_rejected (st : ServerState) (reqId : Option Json) (sid : String)
    (sess : Session) (blocks : List ContentBlock)
    (hsess : jlookup st.sessions sid = some sess)
    (hblocks : ∀ b ∈ blocks, (b.type = "text" ∧ trimSpace b.text = "") ∨
        (b.type ≠ "text" ∧ b.type ≠ "resource_link")) :
    extractUserText st.readFile blocks = ""
    ∧ (∃ tail,
        jlookup (handleSessionPrompt st reqId sid blocks).1.sessions sid
          = some { sess with
              messages := sess.messages ++ userMsgOf "" :: tail })
    ∧ ((handleSessionPrompt st reqId sid blocks).2
          = [okFrame reqId (Json.obj [("stopReason", Json.str "end_turn")])]
        ∨ ∃ e, (handleSessionPrompt st reqId sid blocks).2
          = [errFrame reqId (-32603) "Internal error"
              (some (Json.str ("error processing user input: " ++ e)))])
    ∧ (∀ resp restScript, st.scripts.headD [] = resp :: restScript →
        ∃ evtail,
          (ProcessUserInput { st.agentCfg with shouldExecuteTool := some (fun _ => true) }
              (st.scripts.headD []) "" sess.messages).2.2
            = AgentEvent.append (userMsgOf "") ::
                AgentEvent.llmCall (sess.messages ++ [userMsgOf ""]) :: evtail) := by
  have hext : extractUserText st.readFile blocks = "" := by
    rw [extractUserText, extractParts_nil st.readFile blocks hblocks]
    rfl
  refine ⟨hext, ?_, ?_, ?_⟩
  · obtain ⟨t, ht⟩ := runRounds_extends
      { st.agentCfg with shouldExecuteTool := some (fun _ => true) }
      (st.scripts.headD []) (sess.messages ++ [userMsgOf ""])
    refine ⟨t, ?_⟩
    simp only [handleSessionPrompt, hsess, hext]
    simp only [jlookup, if_pos]
    simp only [ProcessUserInput, userMsgOf] at ht ⊢
    rw [ht]
    simp
  · simp only [handleSessionPrompt, hsess, hext]
    cases hres : (ProcessUserInput { st.agentCfg with shouldExecuteTool := some (fun _ => true) }
        (st.scripts.headD []) "" sess.messages).2.1 with
    | ok => left; rfl
    | llmError e => right; exact ⟨e, rfl⟩
    | outOfScript => left; rfl
  · intro resp restScript hscript
    rw [hscript]
    obtain ⟨t, ht⟩ := runRounds_first_event
      { st.agentCfg with shouldExecuteTool := some (fun _ => true) }
      resp restScript (sess.messages ++ [userMsgOf ""])
    refine ⟨t, ?_⟩
    simp only [ProcessUserInput, userMsgOf] at ht ⊢
    rw [ht]

/-- An empty live session registered as "s9". -/
def sessC9 : Session :=
  { name := "s9",
    messages := [],
    mode := "auto",
    toolset := "default",
    toolVerbosity := "none",
    acp := true }

/-- A server with one live session and a one-round LLM script. -/
def stC9 : ServerState :=
  { stEmpty with
    sessions := [("s9", sessC9)],
    scripts := [[Except.ok amDone]] }

/-- A prompt whose blocks contribute no text: a blank text block and an
unsupported block type. -/
def blocksC9 : List ContentBlock :=
  [ { type := "text", text := "   ", uri := "", name := "", mimeType := "",
      title := "", description := "", size := none },
    { type := "audio", text := "", uri := "", name := "", mimeType := "",
      title := "", description := "", size := none } ]

/-- Witness for C9 on a concrete no-text prompt. -/
theorem c9_empty_prompt_not_rejected_witness :
    jlookup stC9.sessions "s9" = some sessC9
    ∧ (∀ b ∈ blocksC9, (b.type = "text" ∧ trimSpace b.text = "") ∨
        (b.type ≠ "text" ∧ b.type ≠ "resource_link"))
    ∧ (extractUserText stC9.readFile blocksC9 = ""
    ∧ (∃ tail,
        jlookup (handleSessionPrompt stC9 none "s9" blocksC9).1.sessions "s9"
          = some { sessC9 with
              messages := sessC9.messages ++ userMsgOf "" :: tail })
    ∧ ((handleSessionPrompt stC9 none "s9" blocksC9).2
          = [okFrame none (Json.obj [("stopReason", Json.str "end_turn")])]
        ∨ ∃ e, (handleSessionPrompt stC9 none "s9" blocksC9).2
          = [errFrame none (-32603) "Internal error"
              (some (Json.str ("error processing user input: " ++ e)))])
    ∧ (∀ resp restScript, stC9.scripts.headD [] = resp :: restScript →
        ∃ evtail,
          (ProcessUserInput { stC9.agentCfg with shouldExecuteTool := some (fun _ => true) }
              (stC9.scripts.headD []) "" sessC9.messages).2.2
            = AgentEvent.append (userMsgOf "") ::
                AgentEvent.llmCall (sessC9.messages ++ [userMsgOf ""]) :: evtail)) := by
  have hblocks : ∀ b ∈ blocksC9, (b.type = "text" ∧ trimSpace b.text = "") ∨
      (b.type ≠ "text" ∧ b.type ≠ "resource_link") := by
    intro b hb
    simp only [blocksC9, List.mem_cons, List.mem_singleton] at hb
    rcases hb with rfl | hb
    · left; exact ⟨rfl, by decide⟩
    · rcases hb with rfl | hb
      · right; exact ⟨by decide, by decide⟩
      · simp at hb
  exact ⟨rfl, hblocks,
    c9_empty_prompt_not_rejected stC9 none "s9" sessC9 blocksC9 rfl hblocks⟩

/-- A primitive action inside `writeFramedJSON` after marshalling:
taking or releasing the writer mutex, writing a chunk to the shared
output, or flushing it. -/
inductive WriteAction (α : Type) where
  | lock
  | unlock
  | write (chunk : α)
  | flush

/-- writeFrameProgram is the action sequence `writeFramedJSON` performs
for one frame, tagged with the writing thread: acquire the writer lock,
write the marshalled JSON bytes, write exactly one newline terminator,
flush, release.  The marshal step happens before the lock and performs no
output. -/
def writeFrameProgram (t : Bool) (payload : String) : List (Bool × WriteAction String) :=
  [(t, WriteAction.lock), (t, WriteAction.write payload), (t, WriteAction.write "\n"),
   (t, WriteAction.flush), (t, WriteAction.unlock)]

/-- An interleaving of two action sequences that preserves each one's
internal order. -/
inductive Interleave {α : Type} : List α → List α → List α → Prop where
  | nil : Interleave [] [] []
  | left {x : α} {xs ys zs : List α} :
      Interleave xs ys zs → Interleave (x :: xs) ys (x :: zs)
  | right {y : α} {xs ys zs : List α} :
      Interleave xs ys zs → Interleave xs (y :: ys) (y :: zs)

/-- lockValid holder trace: the trace respects the mutex — the lock is
acquired only when free and released only by its holder (`sync.Mutex` is
not reentrant). -/
def lockValid {α : Type} : Option Bool → List (Bool × WriteAction α) → Bool
  | _, [] => true
  | none, (t, WriteAction.lock) :: rest => lockValid (some t) rest
  | some _, (_, WriteAction.lock) :: _ => false
  | some h, (t, WriteAction.unlock) :: rest => t == h && lockValid none rest
  | none, (_, WriteAction.unlock) :: _ => false
  | st, (_, WriteAction.write _) :: rest => lockValid st rest
  | st, (_, WriteAction.flush) :: rest => lockValid st rest

/-- The chunks reaching the shared output stream, in order. -/
def writesOf {α : Type} : List (Bool × WriteAction α) → List α
  | [] => []
  | (_, WriteAction.write c) :: rest => c :: writesOf rest
  | _ :: rest => writesOf rest

/-- An action that neither takes nor releases the lock. -/
def nonLock {α : Type} : WriteAction α → Bool
  | WriteAction.lock => false
  | WriteAction.unlock => false
  | _ => true

theorem interleave_nil_left {α : Type} {ys zs : List α} (h : Interleave [] ys zs) : zs = ys := by
  induction ys generalizing zs with
  | nil => cases h; rfl
  | cons y ys ih =>
    cases h with
    | right h2 => rw [ih h2]

theorem lockValid_cons_nonLock {α : Type} (st : Option Bool) (t : Bool) (a : WriteAction α)
    (h : nonLock a = true) (rest : List (Bool × WriteAction α)) :
    lockValid st ((t, a) :: rest) = lockValid st rest := by
  cases a with
  | lock => simp [nonLock] at h
  | unlock => simp [nonLock] at h
  | write c => cases st <;> rfl
  | flush => cases st <;> rfl

/-- While a thread holds the lock, a valid interleaving schedules only
that thread's remaining critical-section actions: the other thread is
stuck at its initial lock acquisition until the holder releases. -/
theorem crit_absorb {α : Type} (t1 t2 : Bool) :
    ∀ (mid1 : List (Bool × WriteAction α)) (tail2 zs : List (Bool × WriteAction α)),
      (∀ p ∈ mid1, p.1 = t1 ∧ nonLock p.2 = true) →
      Interleave (mid1 ++ [(t1, WriteAction.unlock)]) ((t2, WriteAction.lock) :: tail2) zs →
      lockValid (some t1) zs = true →
      zs = mid1 ++ (t1, WriteAction.unlock) :: (t2, WriteAction.lock) :: tail2 := by
  intro mid1
  induction mid1 with
  | nil =>
    intro tail2 zs hmid hint hval
    cases hint with
    | left h2 =>
      rw [interleave_nil_left h2]
      rfl
    | right h2 =>
      simp [lockValid] at hval
  | cons p mid ih =>
    intro tail2 zs hmid hint hval
    obtain ⟨hp1, hp2⟩ := hmid p (List.mem_cons_self p mid)
    cases hint with
    | left h2 =>
      rename_i zs2
      have hval2 : lockValid (some t1) zs2 = true := by
        rw [← lockValid_cons_nonLock (some t1) p.1 p.2 hp2 zs2]
        exact hval
      have := ih tail2 _ (fun q hq => hmid q (List.mem_cons_of_mem _ hq)) h2 hval2
      rw [List.cons_append, this]
    | right h2 =>
      simp [lockValid] at hval

theorem interleave_nil_right {α : Type} {xs zs : List α} (h : Interleave xs [] zs) : zs = xs := by
  induction xs generalizing zs with
  | nil => cases h; rfl
  | cons x xs ih =>
    cases h with
    | left h2 => rw [ih h2]

/-- The mirror image of `crit_absorb`: the second thread holds the lock
and the first is blocked at its initial acquisition. -/
theorem crit_absorb_right {α : Type} (t1 t2 : Bool) :
    ∀ (mid2 : List (Bool × WriteAction α)) (tail1 zs : List (Bool × WriteAction α)),
      (∀ p ∈ mid2, p.1 = t2 ∧ nonLock p.2 = true) →
      Interleave ((t1, WriteAction.lock) :: tail1) (mid2 ++ [(t2, WriteAction.unlock)]) zs →
      lockValid (some t2) zs = true →
      zs = mid2 ++ (t2, WriteAction.unlock) :: (t1, WriteAction.lock) :: tail1 := by
  intro mid2
  induction mid2 with
  | nil =>
    intro tail1 zs hmid hint hval
    cases hint with
    | right h2 =>
      rw [interleave_nil_right h2]
      rfl
    | left h2 =>
      simp [lockValid] at hval
  | cons p mid ih =>
    intro tail1 zs hmid hint hval
    obtain ⟨hp1, hp2⟩ := hmid p (List.mem_cons_self p mid)
    cases hint with
    | right h2 =>
      rename_i zs2
      have hval2 : lockValid (some t2) zs2 = true := by
        rw [← lockValid_cons_nonLock (some t2) p.1 p.2 hp2 zs2]
        exact hval
      have := ih tail1 _ (fun q hq => hmid q (List.mem_cons_of_mem _ hq)) h2 hval2
      rw [List.cons_append, this]
    | left h2 =>
      simp [lockValid] at hval

/-- C6: in any mutex-respecting interleaving of two frame writes, the
output stream receives one frame's JSON bytes immediately followed by its
single newline terminator, then the other frame's bytes and newline — no
chunk of one frame lands between another frame's bytes and its
terminator, and the flush happens before the lock is released. -/
theorem c6_frame_writes_atomic (d1 d2 : String) (t1 t2 : Bool)
    (tr : List (Bool × WriteAction String))
    (hint : Interleave (writeFrameProgram t1 d1) (writeFrameProgram t2 d2) tr)
    (hval : lockValid none tr = true) :
    writesOf tr = [d1, "\n", d2, "\n"] ∨ writesOf tr = [d2, "\n", d1, "\n"] := by
  cases hint with
  | left h2 =>
    left
    have habs := crit_absorb t1 t2
      [(t1, WriteAction.write d1), (t1, WriteAction.write "\n"), (t1, WriteAction.flush)]
      _ _ (by intro p hp; fin_cases hp <;> exact ⟨rfl, rfl⟩) h2 hval
    rw [habs]
    rfl
  | right h2 =>
    right
    have habs := crit_absorb_right t1 t2
      [(t2, WriteAction.write d2), (t2, WriteAction.write "\n"), (t2, WriteAction.flush)]
      _ _ (by intro p hp; fin_cases hp <;> exact ⟨rfl, rfl⟩) h2 hval
    rw [habs]
    rfl

theorem interleave_append {α : Type} (xs ys : List α) : Interleave xs ys (xs ++ ys) := by
  induction xs with
  | nil =>
    induction ys with
    | nil => exact Interleave.nil
    | cons y ys ih => exact Interleave.right ih
  | cons x xs ih => exact Interleave.left ih

/-- Witness for C6 at a concrete sequential schedule of two frames. -/
theorem c6_frame_writes_atomic_witness :
    Interleave (writeFrameProgram true "frameA") (writeFrameProgram false "frameB")
        (writeFrameProgram true "frameA" ++ writeFrameProgram false "frameB")
    ∧ lockValid none
        (writeFrameProgram true "frameA" ++ writeFrameProgram false "frameB") = true
    ∧ (writesOf (writeFrameProgram true "frameA" ++ writeFrameProgram false "frameB")
          = ["frameA", "\n", "frameB", "\n"]
        ∨ writesOf (writeFrameProgram true "frameA" ++ writeFrameProgram false "frameB")
          = ["frameB", "\n", "frameA", "\n"]) := by
  refine ⟨interleave_append _ _, rfl, ?_⟩
  exact c6_frame_writes_atomic "frameA" "frameB" true false _ (interleave_append _ _) rfl

end Compell
